import Mathlib

/-!
Shallow embedding of `src/xg_Stacking_v2.py` (Datathon-2024): target
cleaning, feature/target row alignment, date-column decomposition, the
interactive model-selection loop, the per-family hyperparameter grids,
the randomized-search sampling configuration and the stacking stage,
together with theorems checking the specification's claims about them.
-/

namespace XgStacking

/-- A pandas numeric cell: a finite value, `+inf`, `-inf`, or `NaN`.
Finite floating-point values are modelled as rationals. -/
inductive PVal where
  | fin (q : ℚ)
  | pinf
  | ninf
  | nan
deriving DecidableEq

def PVal.isNan : PVal → Bool
  | .nan => true
  | _ => false

def PVal.isInf : PVal → Bool
  | .pinf => true
  | .ninf => true
  | _ => false

def PVal.isFin : PVal → Bool
  | .fin _ => true
  | _ => false

/-- IEEE-style addition on extended values, as used by the pandas
summation underlying `Series.mean` (infinities propagate; opposite
infinities give `NaN`; `NaN` absorbs). -/
def PVal.add : PVal → PVal → PVal
  | .nan, _ => .nan
  | _, .nan => .nan
  | .pinf, .ninf => .nan
  | .ninf, .pinf => .nan
  | .pinf, _ => .pinf
  | _, .pinf => .pinf
  | .ninf, _ => .ninf
  | _, .ninf => .ninf
  | .fin a, .fin b => .fin (a + b)

/-- Division of an extended value by a (positive) element count. -/
def PVal.divCount : PVal → Nat → PVal
  | .fin q, n => .fin (q / n)
  | .pinf, _ => .pinf
  | .ninf, _ => .ninf
  | .nan, _ => .nan

/-- A pandas `Series`: (index label, value) pairs. -/
abbrev Series := List (Nat × PVal)

/-- Sum of a list of extended values (empty sum is `0`). -/
def sumP : List PVal → PVal
  | [] => .fin 0
  | v :: t => v.add (sumP t)

/-- `Series.mean` with the pandas default `skipna=True`: the mean over
the non-`NaN` values, `NaN` for an all-`NaN` column. Infinities are NOT
skipped, so a single infinite entry drives the whole mean to that
infinity. -/
def seriesMean (y : Series) : PVal :=
  let vs := (y.map Prod.snd).filter (fun v => !v.isNan)
  if vs.length = 0 then .nan else (sumP vs).divCount vs.length

/-- Line 28: `y = y.fillna(y.mean())`. -/
def fillnaMean (y : Series) : Series :=
  y.map (fun p => (p.1, if p.2.isNan then seriesMean y else p.2))

/-- Line 29, first half: `y.replace([np.inf, -np.inf], np.nan)`. -/
def replaceInfWithNan (y : Series) : Series :=
  y.map (fun p => (p.1, if p.2.isInf then PVal.nan else p.2))

/-- Line 29, second half: `.dropna()`. -/
def dropna (y : Series) : Series :=
  y.filter (fun p => !p.2.isNan)

/-- Lines 28-29: the whole target-cleaning sequence
`y = y.fillna(y.mean()); y = y.replace([inf, -inf], nan).dropna()`. -/
def cleanTarget (y : Series) : Series :=
  dropna (replaceInfWithNan (fillnaMean y))

/-- Line 27: `y = train['Degerlendirme Puani']` — the target column as an
indexed series; `targetOf` reads the target cell out of a row. -/
def extractTarget {α : Type} (train : List (Nat × α)) (targetOf : α → PVal) : Series :=
  train.map (fun r => (r.1, targetOf r.2))

/-- Line 30: `X = train.drop(['Degerlendirme Puani', 'id'], axis=1)` —
dropping columns keeps every row and its index label. -/
def featureRows {α β : Type} (train : List (Nat × α)) (dropCols : α → β) :
    List (Nat × β) :=
  train.map (fun r => (r.1, dropCols r.2))

/-- `df.loc[labels]`: the rows with the given labels, in label order;
`none` models the `KeyError` raised when a label is absent. -/
def locRows {β : Type} (df : List (Nat × β)) : List Nat → Option (List (Nat × β))
  | [] => some []
  | l :: ls =>
    match df.find? (fun r => r.1 == l), locRows df ls with
    | some r, some rest => some (r :: rest)
    | _, _ => none

/-- Line 31: `X = X.loc[y.index]` after target cleaning. -/
def alignedFeatures {α β : Type} (train : List (Nat × α)) (targetOf : α → PVal)
    (dropCols : α → β) : Option (List (Nat × β)) :=
  locRows (featureRows train dropCols)
    ((cleanTarget (extractTarget train targetOf)).map Prod.fst)

/-! ### Counting helper lemmas -/

lemma countP_map' {α β : Type} (p : β → Bool) (f : α → β) :
    ∀ l : List α, (l.map f).countP p = l.countP (fun a => p (f a))
  | [] => rfl
  | a :: t => by simp [List.countP_cons, countP_map' p f t]

lemma length_filter' {α : Type} (p : α → Bool) :
    ∀ l : List α, (l.filter p).length = l.countP p
  | [] => rfl
  | a :: t => by
    by_cases h : p a <;> simp [List.filter_cons, List.countP_cons, h, length_filter' p t]

lemma countP_ext {α : Type} (p q : α → Bool) :
    ∀ l : List α, (∀ a ∈ l, p a = q a) → l.countP p = l.countP q
  | [] => fun _ => rfl
  | a :: t => fun h => by
    have ht := countP_ext p q t (fun b hb => h b (List.mem_cons_of_mem a hb))
    simp [List.countP_cons, ht, h a (List.mem_cons_self a t)]

lemma countP_false' {α : Type} : ∀ l : List α, l.countP (fun _ => false) = 0
  | [] => rfl
  | _ :: t => by simp [List.countP_cons, countP_false' t]

lemma countP_add_notP {α : Type} (p : α → Bool) :
    ∀ l : List α, l.countP p + l.countP (fun a => !p a) = l.length
  | [] => rfl
  | a :: t => by
    have := countP_add_notP p t
    by_cases h : p a <;> simp [List.countP_cons, h] <;> omega

lemma countP_or_disjoint {α : Type} (p q : α → Bool) :
    ∀ l : List α, (∀ a ∈ l, p a = true → q a = false) →
      l.countP (fun a => p a || q a) = l.countP p + l.countP q
  | [] => fun _ => rfl
  | a :: t => fun h => by
    have ht := countP_or_disjoint p q t (fun b hb => h b (List.mem_cons_of_mem a hb))
    by_cases hp : p a
    · have hq := h a (List.mem_cons_self a t) hp
      simp [List.countP_cons, hp, hq, ht]
      omega
    · by_cases hq : q a <;> simp [List.countP_cons, hp, hq, ht] <;> omega

/-! ### Sum and mean lemmas -/

lemma add_isFin {v w : PVal} (hv : v.isFin = true) (hw : w.isFin = true) :
    (v.add w).isFin = true := by
  cases v <;> cases w <;> simp_all [PVal.isFin, PVal.add]

lemma add_isInf_left {v w : PVal} (hv : v.isInf = true) (hw : w.isFin = true) :
    (v.add w).isInf = true := by
  cases v <;> cases w <;> simp_all [PVal.isFin, PVal.isInf, PVal.add]

lemma add_isInf_right {v w : PVal} (hv : v.isFin = true) (hw : w.isInf = true) :
    (v.add w).isInf = true := by
  cases v <;> cases w <;> simp_all [PVal.isFin, PVal.isInf, PVal.add]

lemma isFin_of_not_nan_not_inf {v : PVal} (hn : v.isNan = false) (hi : v.isInf = false) :
    v.isFin = true := by
  cases v <;> simp_all [PVal.isFin, PVal.isInf, PVal.isNan]

lemma sumP_isFin : ∀ l : List PVal,
    l.countP PVal.isNan = 0 → l.countP PVal.isInf = 0 → (sumP l).isFin = true
  | [] => fun _ _ => rfl
  | v :: t => fun hn hi => by
    simp only [List.countP_cons] at hn hi
    have hvn : PVal.isNan v = false := by by_cases h : PVal.isNan v <;> simp [h] at hn ⊢
    have hvi : PVal.isInf v = false := by by_cases h : PVal.isInf v <;> simp [h] at hi ⊢
    have htn : t.countP PVal.isNan = 0 := by omega
    have hti : t.countP PVal.isInf = 0 := by omega
    exact add_isFin (isFin_of_not_nan_not_inf hvn hvi) (sumP_isFin t htn hti)

lemma sumP_isInf : ∀ l : List PVal,
    l.countP PVal.isNan = 0 → l.countP PVal.isInf = 1 → (sumP l).isInf = true
  | [] => by intro _ h; simp at h
  | v :: t => fun hn hi => by
    simp only [List.countP_cons] at hn hi
    have hvn : PVal.isNan v = false := by
      cases h : PVal.isNan v
      · rfl
      · rw [h] at hn; simp at hn
    rw [hvn] at hn
    simp only [Bool.false_eq_true, if_false, Nat.add_zero] at hn
    cases hvi : PVal.isInf v
    · rw [hvi] at hi
      simp only [Bool.false_eq_true, if_false, Nat.add_zero] at hi
      exact add_isInf_right (isFin_of_not_nan_not_inf hvn hvi) (sumP_isInf t hn hi)
    · rw [hvi] at hi
      have hti : t.countP PVal.isInf = 0 := by
        simp only [if_pos] at hi
        omega
      exact add_isInf_left hvi (sumP_isFin t hn hti)

lemma divCount_isInf {v : PVal} (n : Nat) (h : v.isInf = true) :
    (v.divCount n).isInf = true := by
  cases v <;> simp_all [PVal.isInf, PVal.divCount]

lemma isNan_eq_false_of_isInf {v : PVal} (h : v.isInf = true) : v.isNan = false := by
  cases v <;> simp_all [PVal.isInf, PVal.isNan]

/-- With exactly one `NaN` and exactly one infinity among the target
values, `y.mean()` is itself infinite (the infinity is summed, only the
`NaN` is skipped). -/
lemma seriesMean_isInf (y : Series)
    (hn : (y.map Prod.snd).countP PVal.isNan = 1)
    (hi : (y.map Prod.snd).countP PVal.isInf = 1) :
    (seriesMean y).isInf = true := by
  have hfn : ((y.map Prod.snd).filter (fun v => !v.isNan)).countP PVal.isNan = 0 := by
    rw [List.countP_filter]
    have : (y.map Prod.snd).countP (fun a => PVal.isNan a && !a.isNan) =
        (y.map Prod.snd).countP (fun _ => false) :=
      countP_ext _ _ _ (fun a _ => by cases a <;> simp [PVal.isNan])
    rw [this, countP_false']
  have hfi : ((y.map Prod.snd).filter (fun v => !v.isNan)).countP PVal.isInf = 1 := by
    rw [List.countP_filter]
    have : (y.map Prod.snd).countP (fun a => PVal.isInf a && !a.isNan) =
        (y.map Prod.snd).countP PVal.isInf :=
      countP_ext _ _ _ (fun a _ => by cases a <;> simp [PVal.isNan, PVal.isInf])
    rw [this, hi]
  have hlen : ((y.map Prod.snd).filter (fun v => !v.isNan)).length ≠ 0 := by
    have hle := List.countP_le_length (p := PVal.isInf)
      (l := (y.map Prod.snd).filter (fun v => !v.isNan))
    omega
  simp only [seriesMean]
  rw [if_neg hlen]
  exact divCount_isInf _ (sumP_isInf _ hfn hfi)

/-! ### Claim C1 -/

/-- C1: target cleaning runs `fillna(mean)` first and the
infinity-to-`NaN` conversion plus `dropna` second; consequently an
infinite target entry passes through the mean-fill step untouched,
becomes `NaN` only in the replace step, and every row surviving the
whole cleaning has a non-missing value — so a value that became missing
in step (b) was dropped, never mean-filled. -/
theorem target_cleaning_order (y : Series) (p : Nat × PVal) (hp : p ∈ y)
    (hinf : p.2.isInf = true) :
    cleanTarget y = dropna (replaceInfWithNan (fillnaMean y)) ∧
    p ∈ fillnaMean y ∧
    (p.1, PVal.nan) ∈ replaceInfWithNan (fillnaMean y) ∧
    ∀ q ∈ cleanTarget y, q.2.isNan = false := by
  have hnn : p.2.isNan = false := isNan_eq_false_of_isInf hinf
  have hmem : p ∈ fillnaMean y := by
    have h1 : (fun pr : Nat × PVal => (pr.1, if pr.2.isNan then seriesMean y else pr.2)) p
        = p := by
      simp [hnn]
    have h2 := List.mem_map_of_mem
      (fun pr : Nat × PVal => (pr.1, if pr.2.isNan then seriesMean y else pr.2)) hp
    rw [h1] at h2
    exact h2
  refine ⟨rfl, hmem, ?_, ?_⟩
  · have h1 : (fun pr : Nat × PVal => (pr.1, if pr.2.isInf then PVal.nan else pr.2)) p
        = (p.1, PVal.nan) := by
      simp [hinf]
    have h2 := List.mem_map_of_mem
      (fun pr : Nat × PVal => (pr.1, if pr.2.isInf then PVal.nan else pr.2)) hmem
    rw [h1] at h2
    exact h2
  · intro q hq
    have := List.of_mem_filter hq
    simpa using this

def c1Series : Series := [(0, PVal.pinf), (1, PVal.fin 2)]

/-- Witness for C1 at a concrete two-row series with an infinite target. -/
theorem target_cleaning_order_witness :
    ((0, PVal.pinf) ∈ c1Series ∧ (PVal.pinf).isInf = true) ∧
    (cleanTarget c1Series = dropna (replaceInfWithNan (fillnaMean c1Series)) ∧
     (0, PVal.pinf) ∈ fillnaMean c1Series ∧
     ((0 : Nat), PVal.nan) ∈ replaceInfWithNan (fillnaMean c1Series) ∧
     ∀ q ∈ cleanTarget c1Series, q.2.isNan = false) :=
  ⟨⟨by decide, by decide⟩,
    target_cleaning_order c1Series (0, PVal.pinf) (by decide) (by decide)⟩

/-! ### Claim C2 -/

/-- C2: a 1000-row training table whose target has exactly 1 missing and
exactly 1 infinite value (all others finite) keeps exactly 998 rows
after target cleaning: the mean is infinite (the infinity is summed into
it), so the mean-filled missing entry is itself infinite and is dropped
together with the original infinity. -/
theorem thousand_rows_clean_count (y : Series)
    (hlen : y.length = 1000)
    (hn : (y.map Prod.snd).countP PVal.isNan = 1)
    (hi : (y.map Prod.snd).countP PVal.isInf = 1) :
    (cleanTarget y).length = 998 := by
  have hm : (seriesMean y).isInf = true := seriesMean_isInf y hn hi
  have hmn : (seriesMean y).isNan = false := isNan_eq_false_of_isInf hm
  -- values after the fillna step
  have hfv : (fillnaMean y).map Prod.snd =
      (y.map Prod.snd).map (fun v => if v.isNan then seriesMean y else v) := by
    simp only [fillnaMean, List.map_map]
    rfl
  have cfn : ((fillnaMean y).map Prod.snd).countP PVal.isNan = 0 := by
    rw [hfv, countP_map']
    have : (y.map Prod.snd).countP
        (fun a => PVal.isNan (if a.isNan then seriesMean y else a)) =
        (y.map Prod.snd).countP (fun _ => false) :=
      countP_ext _ _ _ (fun a _ => by by_cases h : a.isNan <;> simp [h, hmn])
    rw [this, countP_false']
  have cfi : ((fillnaMean y).map Prod.snd).countP PVal.isInf = 2 := by
    rw [hfv, countP_map']
    have : (y.map Prod.snd).countP
        (fun a => PVal.isInf (if a.isNan then seriesMean y else a)) =
        (y.map Prod.snd).countP (fun a => a.isNan || a.isInf) :=
      countP_ext _ _ _ (fun a _ => by by_cases h : a.isNan <;> simp [h, hm])
    rw [this, countP_or_disjoint _ _ _
      (fun a _ ha => by cases a <;> simp_all [PVal.isNan, PVal.isInf]), hn, hi]
  -- values after the replace step
  have hrv : (replaceInfWithNan (fillnaMean y)).map Prod.snd =
      ((fillnaMean y).map Prod.snd).map (fun v => if v.isInf then PVal.nan else v) := by
    simp only [replaceInfWithNan, List.map_map]
    rfl
  have crn : ((replaceInfWithNan (fillnaMean y)).map Prod.snd).countP PVal.isNan = 2 := by
    rw [hrv, countP_map']
    have : ((fillnaMean y).map Prod.snd).countP
        (fun a => PVal.isNan (if a.isInf then PVal.nan else a)) =
        ((fillnaMean y).map Prod.snd).countP (fun a => a.isInf || a.isNan) :=
      countP_ext _ _ _ (fun a _ => by by_cases h : a.isInf <;> simp [h, PVal.isNan])
    rw [this, countP_or_disjoint _ _ _
      (fun a _ ha => by cases a <;> simp_all [PVal.isNan, PVal.isInf]), cfi, cfn]
  -- length bookkeeping
  have hrl : (replaceInfWithNan (fillnaMean y)).length = 1000 := by
    simp [replaceInfWithNan, fillnaMean, hlen]
  have hfinal : (cleanTarget y).length =
      (replaceInfWithNan (fillnaMean y)).countP (fun p => !p.2.isNan) := by
    simp only [cleanTarget, dropna]
    exact length_filter' _ _
  have hpair : (replaceInfWithNan (fillnaMean y)).countP (fun p => !p.2.isNan) =
      ((replaceInfWithNan (fillnaMean y)).map Prod.snd).countP (fun v => !v.isNan) := by
    rw [countP_map']
  have hsplit := countP_add_notP PVal.isNan ((replaceInfWithNan (fillnaMean y)).map Prod.snd)
  have hvlen : ((replaceInfWithNan (fillnaMean y)).map Prod.snd).length = 1000 := by
    simp [hrl]
  have : ((replaceInfWithNan (fillnaMean y)).map Prod.snd).countP (fun v => !v.isNan)
      = 998 := by
    have he : ((replaceInfWithNan (fillnaMean y)).map Prod.snd).countP
        (fun a => !PVal.isNan a) =
        ((replaceInfWithNan (fillnaMean y)).map Prod.snd).countP (fun v => !v.isNan) := rfl
    omega
  omega

def c2Series : Series :=
  (0, PVal.nan) :: (1, PVal.pinf) :: (List.range 998).map (fun i => (i + 2, PVal.fin 0))

set_option maxRecDepth 100000 in
/-- Witness for C2 at a concrete 1000-row series: one missing, one
infinite and 998 finite target values leave exactly 998 rows. -/
theorem thousand_rows_clean_count_witness :
    (c2Series.length = 1000 ∧
     (c2Series.map Prod.snd).countP PVal.isNan = 1 ∧
     (c2Series.map Prod.snd).countP PVal.isInf = 1) ∧
    (cleanTarget c2Series).length = 998 :=
  ⟨⟨by decide, by decide, by decide⟩,
    thousand_rows_clean_count c2Series (by decide) (by decide) (by decide)⟩

/-! ### Claim C3 -/

lemma find?_some_of_mem {β : Type} (p : β → Bool) :
    ∀ l : List β, ∀ x ∈ l, p x = true → ∃ a, l.find? p = some a ∧ p a = true := by
  intro l
  induction l with
  | nil => intro x hx; simp at hx
  | cons c t ih =>
    intro x hx hpx
    by_cases hc : p c
    · exact ⟨c, by simp [List.find?_cons_of_pos _ hc], hc⟩
    · rcases List.mem_cons.mp hx with h | h
      · rw [← h] at hc; exact absurd hpx hc
      · obtain ⟨a, ha, hpa⟩ := ih x h hpx
        exact ⟨a, by rw [List.find?_cons_of_neg _ hc]; exact ha, hpa⟩

lemma locRows_spec {β : Type} (df : List (Nat × β)) :
    ∀ labels : List Nat, (∀ l ∈ labels, ∃ r ∈ df, r.1 = l) →
      ∃ X, locRows df labels = some X ∧ X.map Prod.fst = labels := by
  intro labels
  induction labels with
  | nil => exact fun _ => ⟨[], rfl, rfl⟩
  | cons l ls ih =>
    intro h
    obtain ⟨r, hr, hrl⟩ := h l (List.mem_cons_self l ls)
    obtain ⟨a, ha, hpa⟩ := find?_some_of_mem (fun r => r.1 == l) df r hr (by simp [hrl])
    obtain ⟨X, hX, hmap⟩ := ih (fun x hx => h x (List.mem_cons_of_mem l hx))
    refine ⟨a :: X, ?_, ?_⟩
    · simp [locRows, ha, hX]
    · have : a.1 = l := by simpa using hpa
      simp [hmap, this]

lemma cleanTarget_label_mem (y : Series) :
    ∀ q ∈ cleanTarget y, q.1 ∈ y.map Prod.fst := by
  intro q hq
  have h1 : q ∈ replaceInfWithNan (fillnaMean y) := List.mem_of_mem_filter hq
  obtain ⟨p1, hp1, he1⟩ := List.mem_map.mp h1
  obtain ⟨p0, hp0, he0⟩ := List.mem_map.mp hp1
  have : q.1 = p0.1 := by
    rw [← he1, ← he0]
  rw [this]
  exact List.mem_map_of_mem Prod.fst hp0

lemma extractTarget_fst {α : Type} (train : List (Nat × α)) (targetOf : α → PVal) :
    (extractTarget train targetOf).map Prod.fst = train.map Prod.fst := by
  simp only [extractTarget, List.map_map]
  rfl

lemma featureRows_fst {α β : Type} (train : List (Nat × α)) (dropCols : α → β) :
    (featureRows train dropCols).map Prod.fst = train.map Prod.fst := by
  simp only [featureRows, List.map_map]
  rfl

/-- C3: after target cleaning, `X = X.loc[y.index]` succeeds, and the
feature table has exactly as many rows as the cleaned target and
identical row labels in identical order. -/
theorem feature_target_alignment {α β : Type} (train : List (Nat × α))
    (targetOf : α → PVal) (dropCols : α → β) :
    ∃ X, alignedFeatures train targetOf dropCols = some X ∧
      X.length = (cleanTarget (extractTarget train targetOf)).length ∧
      X.map Prod.fst = (cleanTarget (extractTarget train targetOf)).map Prod.fst := by
  have hsub : ∀ l ∈ (cleanTarget (extractTarget train targetOf)).map Prod.fst,
      ∃ r ∈ featureRows train dropCols, r.1 = l := by
    intro l hl
    obtain ⟨q, hq, hql⟩ := List.mem_map.mp hl
    have h1 : q.1 ∈ (extractTarget train targetOf).map Prod.fst :=
      cleanTarget_label_mem _ q hq
    rw [extractTarget_fst, ← featureRows_fst train dropCols] at h1
    obtain ⟨r, hr, hrl⟩ := List.mem_map.mp h1
    exact ⟨r, hr, by rw [hrl, hql]⟩
  obtain ⟨X, hX, hmap⟩ := locRows_spec (featureRows train dropCols) _ hsub
  refine ⟨X, hX, ?_, hmap⟩
  have := congrArg List.length hmap
  simpa using this

/-! ### Model selection (lines 74-101) and the stacking stage -/

/-- Lines 74-80: the fixed five-model catalog, keyed by ordinal string.
Each value stands for the regressor family of that entry. -/
def models : List (String × String) :=
  [("1", "XGBoost"), ("2", "Random Forest"), ("3", "Gradient Boosting"),
   ("4", "SVR"), ("5", "CatBoost")]

def modelKeys : List String := models.map Prod.fst

/-- Catalog lookup, as `model_num in models` / `models[model_num]`. -/
def lookupModel (k : String) : Option String :=
  (models.find? (fun m => m.1 == k)).map Prod.snd

/-- Python `str.lower` character-wise (ASCII input). -/
def strToLower (s : String) : String :=
  ⟨s.data.map Char.toLower⟩

/-- Python `str.split(",")`: split on every comma, keeping surrounding
whitespace and empty pieces; `acc` holds the current piece reversed. -/
def splitCommaAux : List Char → List Char → List String
  | [], acc => [⟨acc.reverse⟩]
  | c :: rest, acc =>
    if c = ',' then ⟨acc.reverse⟩ :: splitCommaAux rest []
    else splitCommaAux rest (c :: acc)

def splitComma (s : String) : List String :=
  splitCommaAux s.data []

/-- Lines 89-92: `'all'` (compared after `.lower()`) selects every key,
otherwise the raw input is split on commas with no trimming. -/
def parseSelection (input : String) : List String :=
  if strToLower input == "all" then modelKeys else splitComma input

/-- The console message printed for an invalid token (line 98). -/
def invalidMsg (tok : String) : String :=
  "Invalid model number: " ++ tok ++ ", skipping."

/-- State threaded through the `for model_num in selected_models` loop:
`base_models` (each retained entry stands for the
`(model_name, best_estimator)` pair appended on line 174, recorded here
by family name) and the console lines printed for invalid tokens. -/
structure LoopState where
  baseModels : List String
  console : List String
deriving DecidableEq

/-- One iteration of the loop (lines 96-174): an unknown key prints the
invalid-number message and continues; a known key tunes that family and
appends its best estimator to `base_models`. -/
def selectionStep (st : LoopState) (tok : String) : LoopState :=
  match lookupModel tok with
  | none => { st with console := st.console ++ [invalidMsg tok] }
  | some name => { st with baseModels := st.baseModels ++ [name] }

def runSelectionLoop (tokens : List String) : LoopState :=
  tokens.foldl selectionStep ⟨[], []⟩

/-- Line 178: the `estimators=base_models` argument handed to
`StackingRegressor`. -/
def stackingEstimators (tokens : List String) : List String :=
  (runSelectionLoop tokens).baseModels

/-- `StackingRegressor.fit` (line 185): sklearn validates the
`estimators` attribute at fit time and raises a `ValueError` when the
list is empty; a non-empty list fits (library behavior, otherwise
opaque here). -/
def stackingFit (baseModels : List String) : Except String String :=
  if baseModels.isEmpty then
    .error "Invalid estimators attribute: the estimators list is empty"
  else .ok "fitted"

/-- Lines 177-203: the stacking stage followed by the submission write.
The submission file name is returned only when the fit succeeds; an
uncaught exception (the error branch) terminates the script before
`submission.to_csv` runs, so no file is produced. -/
def runStackingStage (tokens : List String) : Except String String :=
  match stackingFit (stackingEstimators tokens) with
  | .error e => .error e
  | .ok _ => .ok "submission_stacking.csv"

lemma runLoop_general : ∀ (tokens : List String) (st : LoopState),
    tokens.foldl selectionStep st =
      ⟨st.baseModels ++ tokens.filterMap lookupModel,
       st.console ++ (tokens.filter (fun t => (lookupModel t).isNone)).map invalidMsg⟩
  | [], st => by cases st; simp
  | t :: ts, st => by
    cases h : lookupModel t with
    | none =>
      have ih := runLoop_general ts { st with console := st.console ++ [invalidMsg t] }
      simp [List.foldl_cons, selectionStep, h, ih, List.filterMap_cons, List.filter_cons]
    | some name =>
      have ih := runLoop_general ts { st with baseModels := st.baseModels ++ [name] }
      simp [List.foldl_cons, selectionStep, h, ih, List.filterMap_cons, List.filter_cons]

lemma runSelectionLoop_eq (tokens : List String) :
    runSelectionLoop tokens =
      ⟨tokens.filterMap lookupModel,
       (tokens.filter (fun t => (lookupModel t).isNone)).map invalidMsg⟩ := by
  have := runLoop_general tokens ⟨[], []⟩
  simpa [runSelectionLoop] using this

/-! ### Claim C5 -/

/-- C5: every selection token that is not one of the catalog keys is
reported on the console and contributes no base model; the retained base
models are exactly the valid tokens' families in order, so processing
continues with the remaining valid tokens and an invalid index alone
never terminates the run. -/
theorem invalid_token_skipped (tokens : List String) (t : String)
    (ht : t ∈ tokens) (hbad : lookupModel t = none) :
    invalidMsg t ∈ (runSelectionLoop tokens).console ∧
    (runSelectionLoop tokens).baseModels = tokens.filterMap lookupModel := by
  rw [runSelectionLoop_eq]
  refine ⟨?_, rfl⟩
  exact List.mem_map_of_mem invalidMsg (List.mem_filter.mpr ⟨ht, by simp [hbad]⟩)

/-- Witness for C5: on input tokens `["9", "2"]` the invalid `"9"` is
reported and only the Random Forest family is retained. -/
theorem invalid_token_skipped_witness :
    ("9" ∈ ["9", "2"] ∧ lookupModel "9" = none) ∧
    (invalidMsg "9" ∈ (runSelectionLoop ["9", "2"]).console ∧
     (runSelectionLoop ["9", "2"]).baseModels = ["9", "2"].filterMap lookupModel) :=
  ⟨⟨by decide, by decide⟩, invalid_token_skipped ["9", "2"] "9" (by decide) (by decide)⟩

/-! ### Claim C6 -/

/-- C6: when every entered index is invalid, no base models are
retained, `StackingRegressor.fit` then fails visibly on the empty
estimator list, and the run errors out before any submission file is
written. -/
theorem all_invalid_no_submission (tokens : List String)
    (h : ∀ t ∈ tokens, lookupModel t = none) :
    stackingEstimators tokens = [] ∧
    runStackingStage tokens =
      .error "Invalid estimators attribute: the estimators list is empty" := by
  have hempty : stackingEstimators tokens = [] := by
    rw [stackingEstimators, runSelectionLoop_eq]
    exact List.filterMap_eq_nil_iff.mpr h
  refine ⟨hempty, ?_⟩
  simp [runStackingStage, hempty, stackingFit]

/-- Witness for C6 at the all-invalid selection `["9"]`. -/
theorem all_invalid_no_submission_witness :
    (∀ t ∈ ["9"], lookupModel t = none) ∧
    (stackingEstimators ["9"] = [] ∧
     runStackingStage ["9"] =
       .error "Invalid estimators attribute: the estimators list is empty") :=
  ⟨by decide, all_invalid_no_submission ["9"] (by decide)⟩

/-! ### Claim C9 -/

/-- C9: the sentinel `all` is matched case-insensitively (the input is
lower-cased before the comparison), while individual tokens are matched
by exact string equality against the keys after a comma split with no
whitespace trimming: the token `" 2"` of the input `"1, 2"` carries its
leading space, is not a catalog key, and is reported and skipped instead
of selecting family 2. -/
theorem selection_matching (s : String) (hall : strToLower s = "all") :
    parseSelection s = modelKeys ∧
    parseSelection "1, 2" = ["1", " 2"] ∧
    lookupModel " 2" = none ∧
    (runSelectionLoop (parseSelection "1, 2")).baseModels = ["XGBoost"] ∧
    invalidMsg " 2" ∈ (runSelectionLoop (parseSelection "1, 2")).console := by
  refine ⟨by simp [parseSelection, hall], by decide, by decide, by decide, by decide⟩

/-- Witness for C9 at the upper-case sentinel `"ALL"`. -/
theorem selection_matching_witness :
    (strToLower "ALL" = "all") ∧
    (parseSelection "ALL" = modelKeys ∧
     parseSelection "1, 2" = ["1", " 2"] ∧
     lookupModel " 2" = none ∧
     (runSelectionLoop (parseSelection "1, 2")).baseModels = ["XGBoost"] ∧
     invalidMsg " 2" ∈ (runSelectionLoop (parseSelection "1, 2")).console) :=
  ⟨by decide, selection_matching "ALL" (by decide)⟩

/-! ### Claim C10 -/

lemma countP_filterMap' {α β : Type} (f : α → Option β) (p : β → Bool) :
    ∀ l : List α, (l.filterMap f).countP p =
      l.countP (fun a => match f a with | some b => p b | none => false)
  | [] => rfl
  | a :: t => by
    cases h : f a <;>
      simp [List.filterMap_cons, h, List.countP_cons, countP_filterMap' f p t]

/-- C10: the loop preserves the order of the entered tokens and performs
no deduplication: `base_models` is exactly the per-token lookup result
in input order, and the number of stacking entries carrying a family
name equals the number of tokens that selected that family — a valid
index entered twice is tuned twice and contributes two entries with the
same family name to the stacking combiner. -/
theorem selection_order_dedup (tokens : List String) (name : String) :
    stackingEstimators tokens = tokens.filterMap lookupModel ∧
    (stackingEstimators tokens).countP (fun n => n == name) =
      tokens.countP (fun t => lookupModel t == some name) := by
  have he : stackingEstimators tokens = tokens.filterMap lookupModel := by
    rw [stackingEstimators, runSelectionLoop_eq]
  refine ⟨he, ?_⟩
  rw [he, countP_filterMap']
  apply countP_ext
  intro a _
  cases h : lookupModel a <;> simp [h]

/-! ### Claims C8 and C4: hyperparameter grids and search sampling -/

/-- A hyperparameter candidate value: numeric (modelled as a rational)
or a library keyword string. -/
inductive HVal where
  | num (q : ℚ)
  | str (s : String)
deriving DecidableEq

/-- Lines 111-114: the default grid every family starts from. -/
def defaultParamDistributions : List (String × List HVal) :=
  [("regressor__n_estimators", [.num 100, .num 200, .num 300]),
   ("regressor__max_depth", [.num 3, .num 5, .num 7])]

/-- The learning-rate entry added on lines 117-120; inserting a new key
into the Python dict appends it in insertion order. -/
def learningRateEntry : String × List HVal :=
  ("regressor__learning_rate", [.num 0.01, .num 0.1, .num 0.2])

/-- Lines 111-132: the if/elif chain that builds `param_distributions`
for the selected family. -/
def paramDistributionsFor (name : String) : List (String × List HVal) :=
  if name == "XGBoost" then defaultParamDistributions ++ [learningRateEntry]
  else if name == "Gradient Boosting" then defaultParamDistributions ++ [learningRateEntry]
  else if name == "SVR" then
    [("regressor__C", [.num 0.1, .num 1, .num 10]),
     ("regressor__kernel", [.str "rbf", .str "linear", .str "poly"]),
     ("regressor__gamma", [.str "scale", .str "auto", .num 0.1, .num 1, .num 10])]
  else if name == "CatBoost" then
    [("regressor__learning_rate", [.num 0.01, .num 0.1, .num 0.2]),
     ("regressor__depth", [.num 3, .num 5, .num 7]),
     ("regressor__l2_leaf_reg", [.num 1, .num 3, .num 5])]
  else defaultParamDistributions

/-- The search space as the specification describes it, family by
family: the default grid (estimator count in 100/200/300, max depth in
3/5/7); the two gradient-boosted-tree families A (XGBoost) and B
(Gradient Boosting) additionally search the learning rate in
0.01/0.1/0.2; the support-vector family replaces the grid with
regularization strength `C` in 0.1/1/10, kernel in rbf / linear /
polynomial (the library token for the polynomial kernel is `poly`), and
kernel coefficient `gamma` in scale / auto / 0.1 / 1 / 10; the
native-categorical-boosting family (CatBoost) replaces it with learning
rate 0.01/0.1/0.2, tree depth 3/5/7 and L2 leaf regularization 1/3/5. -/
def specSearchSpace (name : String) : List (String × List HVal) :=
  if name == "SVR" then
    [("regressor__C", [.num 0.1, .num 1, .num 10]),
     ("regressor__kernel", [.str "rbf", .str "linear", .str "poly"]),
     ("regressor__gamma", [.str "scale", .str "auto", .num 0.1, .num 1, .num 10])]
  else if name == "CatBoost" then
    [("regressor__learning_rate", [.num 0.01, .num 0.1, .num 0.2]),
     ("regressor__depth", [.num 3, .num 5, .num 7]),
     ("regressor__l2_leaf_reg", [.num 1, .num 3, .num 5])]
  else if name == "XGBoost" || name == "Gradient Boosting" then
    [("regressor__n_estimators", [.num 100, .num 200, .num 300]),
     ("regressor__max_depth", [.num 3, .num 5, .num 7]),
     ("regressor__learning_rate", [.num 0.01, .num 0.1, .num 0.2])]
  else
    [("regressor__n_estimators", [.num 100, .num 200, .num 300]),
     ("regressor__max_depth", [.num 3, .num 5, .num 7])]

/-- C8: for each of the five selectable families the grid built by the
code equals the grid the specification prescribes. -/
theorem hyperparameter_grids :
    paramDistributionsFor "XGBoost" = specSearchSpace "XGBoost" ∧
    paramDistributionsFor "Random Forest" = specSearchSpace "Random Forest" ∧
    paramDistributionsFor "Gradient Boosting" = specSearchSpace "Gradient Boosting" ∧
    paramDistributionsFor "SVR" = specSearchSpace "SVR" ∧
    paramDistributionsFor "CatBoost" = specSearchSpace "CatBoost" :=
  ⟨rfl, rfl, rfl, rfl, rfl⟩

/-- Lines 135-136: `n_iter = 10`, `cv = 5`. -/
def rsNIter : Nat := 10

def rsCv : Nat := 5

/-- The `random_state` argument of the `RandomizedSearchCV` call on
lines 139-147: the call passes none, so sklearn falls back to the
process-global numpy generator. -/
def rsRandomState : Option Nat := none

/-- Size of the full candidate grid of a family (the product of the
per-parameter list lengths), as sklearn ParameterGrid counts it. -/
def gridSizeFor (name : String) : Nat :=
  (paramDistributionsFor name).foldl (fun a p => a * p.2.length) 1

/-- Models drawing `k` distinct candidate indices out of `n` without
replacement from a generator in state `state`. The concrete index
arithmetic stands in for the numpy generator, whose only property used
below is that different states can yield different draws. -/
def sampleWithoutReplacement (state n k : Nat) : List Nat :=
  (List.range k).map (fun i => (state + i) % n)

/-- sklearn ParameterSampler over all-list grids: when the full grid has
at most `n_iter` candidates it is enumerated exhaustively (and
deterministically); otherwise `n_iter` candidates are sampled without
replacement using the configured `random_state`, which for this script
is absent, so the draw depends on the ambient process-global generator
state. -/
def parameterSample (ambient : Nat) (name : String) : List Nat :=
  if gridSizeFor name ≤ rsNIter then List.range (gridSizeFor name)
  else sampleWithoutReplacement (rsRandomState.getD ambient) (gridSizeFor name) rsNIter

/-- `best_params_`: the first argmax of the cross-validation score over
the sampled candidates; the score function is the otherwise opaque ML
evaluation of a candidate on the input data. -/
def bestCandidate (score : Nat → ℚ) (cands : List Nat) : Option Nat :=
  cands.foldl
    (fun best c =>
      match best with
      | none => some c
      | some b => if score b < score c then some c else some b)
    none

/-- A concrete cross-validation score exhibiting the divergence. -/
def c4Score : Nat → ℚ :=
  fun i => if i == 10 then 100 else if i == 0 then 50 else 0

/-- C4 counterexample: `RandomizedSearchCV` is constructed without a
`random_state`, so for a family whose grid exceeds `n_iter = 10`
(XGBoost has 27 candidates) the sampled candidate set depends on the
ambient generator state, and two runs over identical inputs and the
identical selection can return different best hyperparameters. -/
theorem search_seed_counterexample :
    rsRandomState = none ∧
    gridSizeFor "XGBoost" = 27 ∧
    bestCandidate c4Score (parameterSample 0 "XGBoost") ≠
      bestCandidate c4Score (parameterSample 1 "XGBoost") :=
  ⟨rfl, by decide, by decide⟩

/-- C4 amended: the script seeds the train/validation split and the base
regressors but not the randomized search, so reproducibility of the
best hyperparameters holds only where no random sampling occurs: the
random-forest family's full grid (9 candidates) fits within the 10
iterations and is enumerated exhaustively, making its search result
independent of the ambient generator state; the other families' searches
are unseeded and ambient-state dependent. -/
theorem search_reproducibility_amended :
    rsRandomState = none ∧
    gridSizeFor "Random Forest" = 9 ∧
    ∀ (score : Nat → ℚ) (a1 a2 : Nat),
      bestCandidate score (parameterSample a1 "Random Forest") =
        bestCandidate score (parameterSample a2 "Random Forest") :=
  ⟨rfl, by decide, fun _ _ _ => rfl⟩

/-! ### Claim C7: date-column decomposition (lines 34-41) -/

/-- A parsed calendar date, reduced to the three components the script
extracts: year, month (1-12), weekday (Monday = 0 .. Sunday = 6). -/
structure PDate where
  year : Int
  month : Nat
  weekday : Nat
deriving DecidableEq

/-- A dataframe cell: text, a number, a parsed date, or missing
(`NaN` / `NaT`). -/
inductive Cell where
  | str (s : String)
  | num (n : Int)
  | date (d : PDate)
  | null
deriving DecidableEq

/-- A dataframe: named columns of cells. -/
abbrev Df := List (String × List Cell)

/-- `pd.to_datetime(cell, errors='coerce')` pointwise: parseable text
becomes a date, unparseable or missing cells become `NaT` (modelled
`null`); `parse` is the library's date parser, kept abstract. -/
def toDatetime (parse : String → Option PDate) : Cell → Cell
  | .str s =>
    match parse s with
    | some d => .date d
    | none => .null
  | .date d => .date d
  | _ => .null

/-- `.dt.year`: the year of a date cell, missing for `NaT`. -/
def dtYear : Cell → Cell
  | .date d => .num d.year
  | _ => .null

/-- `.dt.month`: the month of a date cell, missing for `NaT`. -/
def dtMonth : Cell → Cell
  | .date d => .num d.month
  | _ => .null

/-- `.dt.weekday`: the weekday of a date cell, missing for `NaT`. -/
def dtWeekday : Cell → Cell
  | .date d => .num d.weekday
  | _ => .null

/-- `df[name]` read access. -/
def getCol (df : Df) (name : String) : Option (List Cell) :=
  (df.find? (fun c => c.1 == name)).map Prod.snd

/-- `df[name] = cells`: replace the column in place when it exists,
otherwise append it as the last column. -/
def setCol (df : Df) (name : String) (cells : List Cell) : Df :=
  if df.any (fun c => c.1 == name) then
    df.map (fun c => if c.1 == name then (name, cells) else c)
  else df ++ [(name, cells)]

/-- `df.drop(name, axis=1, inplace=True)`. -/
def dropCol (df : Df) (name : String) : Df :=
  df.filter (fun c => !(c.1 == name))

/-- Lines 36-41, the body of the date loop for one dataframe: parse the
column in place, derive the three numeric columns, drop the original;
`none` models the `KeyError` when the date column is absent. -/
def decomposeDateCol (parse : String → Option PDate) (col : String) (df : Df) :
    Option Df :=
  (getCol df col).map (fun cells =>
    let parsed := cells.map (toDatetime parse)
    let df1 := setCol df col parsed
    let df2 := setCol df1 (col ++ "_year") (parsed.map dtYear)
    let df3 := setCol df2 (col ++ "_month") (parsed.map dtMonth)
    let df4 := setCol df3 (col ++ "_weekday") (parsed.map dtWeekday)
    dropCol df4 col)

/-- Line 34: `date_columns = ['Dogum Tarihi']`. -/
def dateColumns : List String := ["Dogum Tarihi"]

/-- Lines 35-41: `for df in [X, test]` — the same decomposition applied
to the training features and the test table independently. -/
def engineerDates (parse : String → Option PDate) (x test : Df) : Option (Df × Df) :=
  match decomposeDateCol parse "Dogum Tarihi" x,
        decomposeDateCol parse "Dogum Tarihi" test with
  | some a, some b => some (a, b)
  | _, _ => none

/-! Column-map helper lemmas -/

lemma find?_replace_self (n : String) (cs : List Cell) :
    ∀ df : Df, df.any (fun c => c.1 == n) = true →
      (df.map (fun c => if c.1 == n then (n, cs) else c)).find? (fun c => c.1 == n)
        = some (n, cs) := by
  intro df
  induction df with
  | nil => intro h; simp at h
  | cons c t ih =>
    intro h
    by_cases hc : (c.1 == n) = true
    · simp only [List.map_cons, if_pos hc]
      exact List.find?_cons_of_pos _ (by simp)
    · simp only [List.map_cons, if_neg hc]
      rw [List.find?_cons_of_neg _ (by simpa using hc)]
      apply ih
      simpa [List.any_cons, hc] using h

lemma find?_append_none {β : Type} (p : β → Bool) :
    ∀ l1 l2 : List β, l1.find? p = none → (l1 ++ l2).find? p = l2.find? p := by
  intro l1
  induction l1 with
  | nil => intro l2 _; rfl
  | cons a t ih =>
    intro l2 h
    by_cases ha : p a = true
    · rw [List.find?_cons_of_pos _ ha] at h
      exact absurd h (by simp)
    · rw [List.find?_cons_of_neg _ (by simpa using ha)] at h
      rw [List.cons_append, List.find?_cons_of_neg _ (by simpa using ha)]
      exact ih l2 h

lemma find?_append_some {β : Type} (p : β → Bool) {a : β} :
    ∀ l1 l2 : List β, l1.find? p = some a → (l1 ++ l2).find? p = some a := by
  intro l1
  induction l1 with
  | nil => intro l2 h; simp at h
  | cons c t ih =>
    intro l2 h
    by_cases hc : p c = true
    · rw [List.find?_cons_of_pos _ hc] at h
      rw [List.cons_append, List.find?_cons_of_pos _ hc]
      exact h
    · rw [List.find?_cons_of_neg _ (by simpa using hc)] at h
      rw [List.cons_append, List.find?_cons_of_neg _ (by simpa using hc)]
      exact ih l2 h

lemma getCol_setCol_self (df : Df) (n : String) (cs : List Cell) :
    getCol (setCol df n cs) n = some cs := by
  unfold getCol setCol
  by_cases h : df.any (fun c => c.1 == n) = true
  · rw [if_pos h, find?_replace_self n cs df h]
    rfl
  · rw [if_neg h]
    have hn : df.find? (fun c => c.1 == n) = none := by
      rw [List.find?_eq_none]
      intro x hx hpx
      exact h (List.any_eq_true.mpr ⟨x, hx, hpx⟩)
    rw [find?_append_none _ df _ hn, List.find?_cons_of_pos _ (by simp)]
    rfl

lemma beq_symm_false {n m : String} (h : (m == n) = false) : (n == m) = false := by
  have : m ≠ n := by simpa using h
  simpa using (Ne.symm this)

lemma find?_map_replace (n m : String) (cs : List Cell) (hnm : (m == n) = false) :
    ∀ df : Df,
      (df.map (fun c => if c.1 == n then (n, cs) else c)).find? (fun c => c.1 == m)
        = df.find? (fun c => c.1 == m) := by
  intro df
  induction df with
  | nil => rfl
  | cons c t ih =>
    by_cases hc : (c.1 == n) = true
    · have hcn : c.1 = n := by simpa using hc
      have hm : (c.1 == m) = false := by rw [hcn]; exact beq_symm_false hnm
      simp only [List.map_cons, if_pos hc, List.find?_cons, beq_symm_false hnm, hm]
      exact ih
    · simp only [List.map_cons, if_neg hc, List.find?_cons]
      cases hm : (c.1 == m)
      · simp only [hm]
        simpa [-List.find?_map] using ih
      · simp only [hm]

lemma getCol_setCol_other (df : Df) (n m : String) (cs : List Cell)
    (hnm : (m == n) = false) :
    getCol (setCol df n cs) m = getCol df m := by
  unfold getCol setCol
  by_cases h : df.any (fun c => c.1 == n) = true
  · rw [if_pos h, find?_map_replace n m cs hnm df]
  · rw [if_neg h]
    cases hf : df.find? (fun c => c.1 == m) with
    | none =>
      rw [find?_append_none _ df _ hf,
        List.find?_cons_of_neg _ (by simp [beq_symm_false hnm])]
      rfl
    | some a =>
      rw [find?_append_some _ df _ hf]

lemma getCol_dropCol_self (df : Df) (n : String) :
    getCol (dropCol df n) n = none := by
  unfold getCol dropCol
  have : (df.filter (fun c => !(c.1 == n))).find? (fun c => c.1 == n) = none := by
    rw [List.find?_eq_none]
    intro x hx
    have := List.of_mem_filter hx
    simpa using this
  rw [this]
  rfl

lemma getCol_dropCol_other (df : Df) (n m : String) (hnm : (m == n) = false) :
    getCol (dropCol df n) m = getCol df m := by
  unfold getCol dropCol
  congr 1
  induction df with
  | nil => rfl
  | cons c t ih =>
    simp only [List.filter_cons]
    by_cases hc : (c.1 == n) = true
    · have hcn : c.1 = n := by simpa using hc
      have hm : (c.1 == m) = false := by rw [hcn]; exact beq_symm_false hnm
      simp only [hc, Bool.not_true, if_false, List.find?_cons, hm]
      exact ih
    · have hc2 : (c.1 == n) = false := by simpa using hc
      simp only [hc2, Bool.not_false, if_true, List.find?_cons]
      cases hm : (c.1 == m) <;> simp [hm, ih]

lemma any_name_eq (df : Df) (n : String) :
    df.any (fun c => c.1 == n) = (df.map Prod.fst).any (fun s => s == n) := by
  induction df with
  | nil => rfl
  | cons c t ih => simp [List.any_cons, ih]

lemma any_beq_eq_false_of_not_mem {n : String} {names : List String}
    (h : n ∉ names) : names.any (fun s => s == n) = false := by
  cases ha : names.any (fun s => s == n)
  · rfl
  · exfalso
    obtain ⟨x, hx, hxe⟩ := List.any_eq_true.mp ha
    have : x = n := by simpa using hxe
    exact h (this ▸ hx)

lemma names_setCol_present (df : Df) (n : String) (cs : List Cell)
    (h : df.any (fun c => c.1 == n) = true) :
    (setCol df n cs).map Prod.fst = df.map Prod.fst := by
  unfold setCol
  rw [if_pos h, List.map_map]
  apply List.map_congr_left
  intro c _
  by_cases hc : (c.1 == n) = true
  · have hcn : c.1 = n := by simpa using hc
    simp only [Function.comp_apply, if_pos hc]
    exact hcn.symm
  · simp only [Function.comp_apply, if_neg hc]

lemma names_setCol_absent (df : Df) (n : String) (cs : List Cell)
    (h : df.any (fun c => c.1 == n) = false) :
    (setCol df n cs).map Prod.fst = df.map Prod.fst ++ [n] := by
  unfold setCol
  rw [if_neg (by simp [h])]
  simp

/-- C7 for one dataframe (the loop applies this to the training features
and the test table alike): when the date column is present, the
decomposition succeeds; the original column is gone; the three derived
columns year / month / weekday exist, each with one entry per original
row; the output columns are exactly the original ones minus the date
column plus the three derived ones; parse failures and missing source
dates yield missing entries (not absent columns). -/
theorem date_decomposition (parse : String → Option PDate) (df : Df)
    (cells : List Cell)
    (h : getCol df "Dogum Tarihi" = some cells)
    (hy : "Dogum Tarihi_year" ∉ df.map Prod.fst)
    (hm : "Dogum Tarihi_month" ∉ df.map Prod.fst)
    (hw : "Dogum Tarihi_weekday" ∉ df.map Prod.fst) :
    ∃ out, decomposeDateCol parse "Dogum Tarihi" df = some out ∧
      getCol out "Dogum Tarihi" = none ∧
      getCol out "Dogum Tarihi_year" =
        some ((cells.map (toDatetime parse)).map dtYear) ∧
      getCol out "Dogum Tarihi_month" =
        some ((cells.map (toDatetime parse)).map dtMonth) ∧
      getCol out "Dogum Tarihi_weekday" =
        some ((cells.map (toDatetime parse)).map dtWeekday) ∧
      ((cells.map (toDatetime parse)).map dtYear).length = cells.length ∧
      ((cells.map (toDatetime parse)).map dtMonth).length = cells.length ∧
      ((cells.map (toDatetime parse)).map dtWeekday).length = cells.length ∧
      out.map Prod.fst =
        (df.map Prod.fst).filter (fun s => !(s == "Dogum Tarihi")) ++
          ["Dogum Tarihi_year", "Dogum Tarihi_month", "Dogum Tarihi_weekday"] ∧
      (∀ s, parse s = none → toDatetime parse (Cell.str s) = Cell.null) ∧
      toDatetime parse Cell.null = Cell.null ∧
      dtYear Cell.null = Cell.null ∧
      dtMonth Cell.null = Cell.null ∧
      dtWeekday Cell.null = Cell.null := by
  have hpresent : df.any (fun c => c.1 == "Dogum Tarihi") = true := by
    unfold getCol at h
    cases hf : df.find? (fun c => c.1 == "Dogum Tarihi") with
    | none => rw [hf] at h; simp at h
    | some a =>
      have hpa := List.find?_some hf
      exact List.any_eq_true.mpr ⟨a, List.mem_of_find?_eq_some hf, hpa⟩
  set parsed := cells.map (toDatetime parse) with hparsed
  set df1 := setCol df "Dogum Tarihi" parsed with hdf1
  set df2 := setCol df1 "Dogum Tarihi_year" (parsed.map dtYear) with hdf2
  set df3 := setCol df2 "Dogum Tarihi_month" (parsed.map dtMonth) with hdf3
  set df4 := setCol df3 "Dogum Tarihi_weekday" (parsed.map dtWeekday) with hdf4
  have hout : decomposeDateCol parse "Dogum Tarihi" df =
      some (dropCol df4 "Dogum Tarihi") := by
    unfold decomposeDateCol
    rw [h]
    rfl
  -- column names after each assignment
  have hnames1 : df1.map Prod.fst = df.map Prod.fst :=
    names_setCol_present df _ parsed hpresent
  have habs2 : df1.any (fun c => c.1 == "Dogum Tarihi_year") = false := by
    rw [any_name_eq, hnames1]
    exact any_beq_eq_false_of_not_mem hy
  have hnames2 : df2.map Prod.fst = df.map Prod.fst ++ ["Dogum Tarihi_year"] := by
    rw [hdf2, names_setCol_absent df1 _ _ habs2, hnames1]
  have habs3 : df2.any (fun c => c.1 == "Dogum Tarihi_month") = false := by
    rw [any_name_eq, hnames2]
    apply any_beq_eq_false_of_not_mem
    simp only [List.mem_append, List.mem_singleton]
    rintro (hc | hc)
    · exact hm hc
    · exact absurd hc (by decide)
  have hnames3 : df3.map Prod.fst =
      df.map Prod.fst ++ ["Dogum Tarihi_year", "Dogum Tarihi_month"] := by
    rw [hdf3, names_setCol_absent df2 _ _ habs3, hnames2, List.append_assoc]
    rfl
  have habs4 : df3.any (fun c => c.1 == "Dogum Tarihi_weekday") = false := by
    rw [any_name_eq, hnames3]
    apply any_beq_eq_false_of_not_mem
    simp only [List.mem_append, List.mem_cons, List.mem_singleton]
    rintro (hc | hc | hc)
    · exact hw hc
    · exact absurd hc (by decide)
    · exact absurd hc (by decide)
  have hnames4 : df4.map Prod.fst =
      df.map Prod.fst ++
        ["Dogum Tarihi_year", "Dogum Tarihi_month", "Dogum Tarihi_weekday"] := by
    rw [hdf4, names_setCol_absent df3 _ _ habs4, hnames3, List.append_assoc]
    rfl
  -- the derived columns read back
  have hgy : getCol df4 "Dogum Tarihi_year" = some (parsed.map dtYear) := by
    rw [hdf4, getCol_setCol_other _ _ _ _ (by decide),
      hdf3, getCol_setCol_other _ _ _ _ (by decide),
      hdf2, getCol_setCol_self]
  have hgm : getCol df4 "Dogum Tarihi_month" = some (parsed.map dtMonth) := by
    rw [hdf4, getCol_setCol_other _ _ _ _ (by decide),
      hdf3, getCol_setCol_self]
  have hgw : getCol df4 "Dogum Tarihi_weekday" = some (parsed.map dtWeekday) := by
    rw [hdf4, getCol_setCol_self]
  refine ⟨dropCol df4 "Dogum Tarihi", hout, getCol_dropCol_self df4 _, ?_, ?_, ?_,
    ?_, ?_, ?_, ?_, ?_, rfl, rfl, rfl, rfl⟩
  · rw [getCol_dropCol_other _ _ _ (by decide)]
    exact hgy
  · rw [getCol_dropCol_other _ _ _ (by decide)]
    exact hgm
  · rw [getCol_dropCol_other _ _ _ (by decide)]
    exact hgw
  · rw [hparsed]; simp
  · rw [hparsed]; simp
  · rw [hparsed]; simp
  · -- output column names
    unfold dropCol
    have hfm : (df4.filter (fun c => !(c.1 == "Dogum Tarihi"))).map Prod.fst =
        (df4.map Prod.fst).filter (fun s => !(s == "Dogum Tarihi")) := by
      rw [List.map_filter]
      rfl
    rw [hfm, hnames4, List.filter_append]
    congr 1
  · intro s hs
    simp [toDatetime, hs]

def c7Parse : String → Option PDate := fun _ => none

def c7Df : Df :=
  [("Dogum Tarihi", [Cell.str "x", Cell.null]), ("n1", [Cell.num 1, Cell.num 2])]

/-- Witness for C7 at a concrete two-column, two-row dataframe whose
date column holds one unparseable text and one missing value. -/
theorem date_decomposition_witness :
    (getCol c7Df "Dogum Tarihi" = some [Cell.str "x", Cell.null] ∧
     "Dogum Tarihi_year" ∉ c7Df.map Prod.fst ∧
     "Dogum Tarihi_month" ∉ c7Df.map Prod.fst ∧
     "Dogum Tarihi_weekday" ∉ c7Df.map Prod.fst) ∧
    (∃ out, decomposeDateCol c7Parse "Dogum Tarihi" c7Df = some out ∧
      getCol out "Dogum Tarihi" = none ∧
      getCol out "Dogum Tarihi_year" =
        some (([Cell.str "x", Cell.null].map (toDatetime c7Parse)).map dtYear) ∧
      getCol out "Dogum Tarihi_month" =
        some (([Cell.str "x", Cell.null].map (toDatetime c7Parse)).map dtMonth) ∧
      getCol out "Dogum Tarihi_weekday" =
        some (([Cell.str "x", Cell.null].map (toDatetime c7Parse)).map dtWeekday) ∧
      (([Cell.str "x", Cell.null].map (toDatetime c7Parse)).map dtYear).length =
        [Cell.str "x", Cell.null].length ∧
      (([Cell.str "x", Cell.null].map (toDatetime c7Parse)).map dtMonth).length =
        [Cell.str "x", Cell.null].length ∧
      (([Cell.str "x", Cell.null].map (toDatetime c7Parse)).map dtWeekday).length =
        [Cell.str "x", Cell.null].length ∧
      out.map Prod.fst =
        (c7Df.map Prod.fst).filter (fun s => !(s == "Dogum Tarihi")) ++
          ["Dogum Tarihi_year", "Dogum Tarihi_month", "Dogum Tarihi_weekday"] ∧
      (∀ s, c7Parse s = none → toDatetime c7Parse (Cell.str s) = Cell.null) ∧
      toDatetime c7Parse Cell.null = Cell.null ∧
      dtYear Cell.null = Cell.null ∧
      dtMonth Cell.null = Cell.null ∧
      dtWeekday Cell.null = Cell.null) :=
  ⟨⟨by decide, by decide, by decide, by decide⟩,
    date_decomposition c7Parse c7Df [Cell.str "x", Cell.null]
      (by decide) (by decide) (by decide) (by decide)⟩

end XgStacking
